import Mathlib

/-!
Shallow embedding of the workflow-construction core of `alab_control`
(`src/alab_control/labman/components.py`): the `InputFile` recipe entity,
its serialization and equality, and the `Workflow` merge-on-add allocator.

Modelling conventions:
* Python numbers (ints and floats) are modelled as exact rationals `ℚ`.
  Decimal float literals of the source (`0.789`, `0.85`, `90*60/10000`)
  are taken at their decimal value.
* `round(x, 5)` (Python round-half-even at 5 decimal places) is `pyRound5`,
  `round(x)` is `pyRoundInt`, `int(x)` (truncation toward zero) is `pyInt`.
* Python exceptions are modelled with `Except`: construction errors as
  `Except String`, the runtime errors of `Workflow.add_input`
  (`WorkflowFullError`, `SampleTrackingError`, and the `ZeroDivisionError`
  that `max_replicates` raises when `ethanol_volume == 0`) as `Except WError`.
* The optional `sample: Any` argument is modelled as `Option String`;
  only its `is None` / `is not None` status matters to the source logic.
* `time_added: datetime` is modelled as a plain `ℕ` timestamp supplied by the
  caller (the source defaults it to the wall-clock time, which has no bearing
  on any property below: it is excluded from equality).
* In `InputFile.__eq__` the source divides by `CrucibleReplicates`; in `ℚ`
  division by zero yields `0` where Python would raise.  All theorems below
  only ever compare input files whose replicate count is at least 1, where the
  two semantics agree.
-/

deriving instance DecidableEq for Except

/-- Truncation toward zero, Python `int(x)`. -/
def pyInt (x : ℚ) : ℤ :=
  if x < 0 then -Rat.floor (-x) else Rat.floor x

/-- Round half to even (banker's rounding) to an integer, Python `round(x)`. -/
def roundHalfEven (y : ℚ) : ℤ :=
  if y - Rat.floor y < 1/2 then Rat.floor y
  else if 1/2 < y - Rat.floor y then Rat.floor y + 1
  else if Rat.floor y % 2 = 0 then Rat.floor y else Rat.floor y + 1

/-- Python `round(x, 5)`: round half to even at 5 decimal places. -/
def pyRound5 (x : ℚ) : ℚ :=
  (roundHalfEven (x * 100000) : ℚ) / 100000

/-- Python `round(x)` as used for durations and speeds. -/
def pyRoundInt (x : ℚ) : ℤ :=
  roundHalfEven x

/-- Python truthiness defaulting `v or d` for an `Optional` numeric argument
`v`: both `None` and `0` select the default `d`. -/
def pyOrQ (v : Option ℚ) (d : ℚ) : ℚ :=
  match v with
  | none => d
  | some t => if t = 0 then d else t

/-- `InputFile.MAX_JAR_VOLUME_UL = 22000`. -/
def MAX_JAR_VOLUME_UL : ℚ := 22000

/-- `Workflow.MAX_CRUCIBLES = 16`. -/
def MAX_CRUCIBLES : ℕ := 16

/-- Runtime errors reachable from `Workflow.add_input`. -/
inductive WError where
  | workflowFull
  | sampleTracking
  | zeroDivision
deriving DecidableEq

/-- The state of a validated `InputFile` after `__init__` has run
(`components.py` lines 13-102).  `powder_dispenses` is an association list in
Python dict insertion order (dict keys are distinct by construction). -/
structure InputFile where
  powder_dispenses : List (String × ℚ)
  ethanol_volume : ℚ
  transfer_volume : ℚ
  heating_duration : ℚ
  mixer_speed : ℚ
  mixer_duration : ℚ
  min_transfer_mass : ℚ
  allow_replicates : Bool
  replicates : ℕ
  time_added : ℕ
deriving DecidableEq

/-- The derived default for `min_transfer_mass` (`components.py` lines 73-91):
`0.85 * (transfer_volume * 0.789/1000 + sum of powder masses)`, unless an
explicit value was supplied (the source tests `is not None`, so an explicit
`0` is honoured here, unlike the truthiness-defaulted fields). -/
def defaultMinTransferMass (min_transfer_mass_g : Option ℚ) (transfer_volume : ℚ)
    (powder_dispenses : List (String × ℚ)) : ℚ :=
  match min_transfer_mass_g with
  | some m => m
  | none =>
      (powder_dispenses.foldl (fun acc pm => acc + pm.2)
        (transfer_volume * (789 / 1000 / 1000))) * (85 / 100)

/-- `InputFile.__init__` (`components.py` lines 13-102).  Validation happens in
source order; `transfer_volume_ul or ethanol_volume` and
`heating_duration_s or ethanol_volume * (90*60/10000)` use Python truthiness
(`pyOrQ`), so an explicit `0` selects the default. -/
def InputFile.init (powder_dispenses : List (String × ℚ))
    (heating_duration_s : Option ℚ) (ethanol_volume_ul : ℚ)
    (transfer_volume_ul : Option ℚ) (mixer_speed_rpm : ℚ) (mixer_duration_s : ℚ)
    (min_transfer_mass_g : Option ℚ) (replicates : ℕ) (allow_replicates : Bool)
    (time_added : ℕ) : Except String InputFile :=
  if powder_dispenses.length = 0 then
    .error "powder_dispenses must be non-empty"
  else if powder_dispenses.any (fun pm => pm.2 ≤ 0) then
    .error "invalid mass provided in powder_dispenses"
  else if ethanol_volume_ul < 0 ∨ MAX_JAR_VOLUME_UL < ethanol_volume_ul then
    .error "ethanol_volume_ul out of range"
  else if pyOrQ heating_duration_s (ethanol_volume_ul * (90 * 60 / 10000)) < 0 ∨
      240 * 60 < pyOrQ heating_duration_s (ethanol_volume_ul * (90 * 60 / 10000)) then
    .error "heating_duration_s out of range"
  else if mixer_duration_s < 0 ∨ 15 * 60 < mixer_duration_s then
    .error "mixer_duration_s out of range"
  else if allow_replicates = false ∧ 1 < replicates then
    .error "invalid replicate settings"
  else
    .ok
      { powder_dispenses := powder_dispenses
        ethanol_volume := ethanol_volume_ul
        transfer_volume := pyOrQ transfer_volume_ul ethanol_volume_ul
        heating_duration := pyOrQ heating_duration_s (ethanol_volume_ul * (90 * 60 / 10000))
        mixer_speed := mixer_speed_rpm
        mixer_duration := mixer_duration_s
        min_transfer_mass :=
          defaultMinTransferMass min_transfer_mass_g
            (pyOrQ transfer_volume_ul ethanol_volume_ul) powder_dispenses
        allow_replicates := allow_replicates
        replicates := replicates
        time_added := time_added }

/-- The dictionary produced by `InputFile.to_json` (`components.py` lines
104-119).  Field names follow the source keys. -/
structure LabmanJson where
  CrucibleReplicates : ℕ
  HeatingDuration : ℤ
  EthanolDispenseVolume : ℤ
  MinimumTransferMass : ℚ
  MixerDuration : ℤ
  MixerSpeed : ℤ
  PowderDispenses : List (String × ℚ)
  TargetTransferVolume : ℤ
  time_added : ℕ
deriving DecidableEq

/-- `InputFile.to_json` (`components.py` lines 104-119): serialized ethanol
volume and powder masses are totals scaled by the replicate count; masses are
rounded to 5 decimals, durations and speed to integers. -/
def InputFile.to_json (f : InputFile) : LabmanJson :=
  { CrucibleReplicates := f.replicates
    HeatingDuration := pyInt f.heating_duration
    EthanolDispenseVolume := pyInt f.ethanol_volume * f.replicates
    MinimumTransferMass := pyRound5 f.min_transfer_mass
    MixerDuration := pyRoundInt f.mixer_duration
    MixerSpeed := pyRoundInt f.mixer_speed
    PowderDispenses :=
      f.powder_dispenses.map (fun pm => (pm.1, pyRound5 (pm.2 * f.replicates)))
    TargetTransferVolume := pyInt f.transfer_volume
    time_added := f.time_added }

/-- `InputFile.to_labman_json(position)` output (`components.py` lines
121-148): `to_json` with `time_added` removed and `Position` injected. -/
structure PosJson where
  CrucibleReplicates : ℕ
  HeatingDuration : ℤ
  EthanolDispenseVolume : ℤ
  MinimumTransferMass : ℚ
  MixerDuration : ℤ
  MixerSpeed : ℤ
  PowderDispenses : List (String × ℚ)
  TargetTransferVolume : ℤ
  Position : ℤ
deriving DecidableEq

/-- `InputFile.to_labman_json` (`components.py` lines 121-148). -/
def InputFile.to_labman_json (f : InputFile) (position : ℤ) : PosJson :=
  { CrucibleReplicates := f.to_json.CrucibleReplicates
    HeatingDuration := f.to_json.HeatingDuration
    EthanolDispenseVolume := f.to_json.EthanolDispenseVolume
    MinimumTransferMass := f.to_json.MinimumTransferMass
    MixerDuration := f.to_json.MixerDuration
    MixerSpeed := f.to_json.MixerSpeed
    PowderDispenses := f.to_json.PowderDispenses
    TargetTransferVolume := f.to_json.TargetTransferVolume
    Position := position }

/-- `InputFile.from_json` (`components.py` lines 150-166): rebuilds an
`InputFile` from a serialized dictionary.  The ethanol volume is divided by
the replicate count (the class stores it per replicate) but the powder masses
are passed through unchanged; `allow_replicates` is left at its default
`True`.  The dict comprehension over `PowderDispenses` preserves the
association list (keys of a Python dict are distinct). -/
def InputFile.from_json (j : LabmanJson) : Except String InputFile :=
  InputFile.init j.PowderDispenses (some (j.HeatingDuration : ℚ))
    ((j.EthanolDispenseVolume : ℚ) / (j.CrucibleReplicates : ℚ))
    (some (j.TargetTransferVolume : ℚ)) (j.MixerSpeed : ℚ) (j.MixerDuration : ℚ)
    (some j.MinimumTransferMass) j.CrucibleReplicates true j.time_added

/-- `InputFile.max_replicates` (`components.py` lines 177-184):
`floor(MAX_JAR_VOLUME_UL / ethanol_volume)`.  Python raises
`ZeroDivisionError` when `ethanol_volume == 0`. -/
def InputFile.max_replicates (f : InputFile) : Except WError ℤ :=
  if f.ethanol_volume = 0 then .error .zeroDivision
  else .ok (Rat.floor (MAX_JAR_VOLUME_UL / f.ethanol_volume))

/-- The value of `max_replicates` away from the division-by-zero case, for use
in statements. -/
def InputFile.max_replicates_val (f : InputFile) : ℤ :=
  Rat.floor (MAX_JAR_VOLUME_UL / f.ethanol_volume)

/-- `InputFile.can_accept_another_replicate` (`components.py` lines 186-197):
`False` when replicates are disallowed (short-circuiting before the division),
otherwise `replicates < max_replicates`. -/
def InputFile.can_accept_another_replicate (f : InputFile) : Except WError Bool :=
  if f.allow_replicates = false then .ok false
  else f.max_replicates.map (fun m => decide ((f.replicates : ℤ) < m))

/-- The normalized dictionary compared by `InputFile.__eq__` (`components.py`
lines 206-224): `EthanolDispenseVolume` and every powder mass divided by
`CrucibleReplicates`, then `CrucibleReplicates` and `time_added` removed. -/
structure NormJson where
  HeatingDuration : ℤ
  EthanolDispenseVolume : ℚ
  MinimumTransferMass : ℚ
  MixerDuration : ℤ
  MixerSpeed : ℤ
  PowderDispenses : List (String × ℚ)
  TargetTransferVolume : ℤ
deriving DecidableEq

/-- Normalization step of `InputFile.__eq__`. -/
def normalizeJson (j : LabmanJson) : NormJson :=
  { HeatingDuration := j.HeatingDuration
    EthanolDispenseVolume := (j.EthanolDispenseVolume : ℚ) / (j.CrucibleReplicates : ℚ)
    MinimumTransferMass := j.MinimumTransferMass
    MixerDuration := j.MixerDuration
    MixerSpeed := j.MixerSpeed
    PowderDispenses := j.PowderDispenses.map (fun pm => (pm.1, pm.2 / (j.CrucibleReplicates : ℚ)))
    TargetTransferVolume := j.TargetTransferVolume }

/-- `InputFile.__eq__` (`components.py` lines 206-224): equality of the
normalized serialized dictionaries, ignoring replicate count and
`time_added`. -/
def InputFile.eq (a b : InputFile) : Bool :=
  decide (normalizeJson a.to_json = normalizeJson b.to_json)

/-- One workflow entry: a stored input file and its associated sample list
(the values of `Workflow.__inputs`). -/
abbrev WEntry := InputFile × List (Option String)

/-- `Workflow` state: the name and the ordered entry list `__inputs`. -/
structure Workflow where
  name : String
  inputs : List WEntry
deriving DecidableEq

/-- `Workflow.INVALID_CHARACTERS`. -/
def INVALID_CHARACTERS : List Char := [':', '\t', '\n', '\r', '\x00', '\x0b']

/-- `Workflow.__init__` (`components.py` lines 235-244). -/
def Workflow.init (name : String) : Except String Workflow :=
  if name.data.any (fun c => INVALID_CHARACTERS.contains c) then
    .error "invalid character in name"
  else .ok { name := name, inputs := [] }

/-- Total replicate count of a list of entries. -/
def sumReps (l : List WEntry) : ℕ :=
  (l.map (fun e => e.1.replicates)).sum

/-- `Workflow.required_crucibles` (`components.py` lines 382-389). -/
def Workflow.required_crucibles (w : Workflow) : ℕ :=
  sumReps w.inputs

/-- `Workflow.required_jars` (`components.py` lines 373-380). -/
def Workflow.required_jars (w : Workflow) : ℕ :=
  w.inputs.length

/-- `Workflow.samples_are_being_tracked` (`components.py` lines 415-420):
true when any entry's sample list holds a non-null sample. -/
def Workflow.samples_are_being_tracked (w : Workflow) : Bool :=
  w.inputs.any (fun e => e.2.any (fun s => s.isSome))

/-- The inner `while` loop of the merge step in `Workflow.add_input`
(`components.py` lines 302-309): while the existing entry
`can_accept_another_replicate` (evaluated first, so its division-by-zero
error fires even when no replicates remain) and the incoming file still has
replicates, move one replicate across and append the sample to the entry's
list.  Arguments: remaining incoming replicates, the existing entry's file,
the entry's sample list.  Returns the updated entry and the remaining
incoming replicate count. -/
def mergeWhile (sample : Option String) :
    ℕ → InputFile → List (Option String) →
    Except WError (InputFile × List (Option String) × ℕ)
  | 0, g, sl =>
    match g.can_accept_another_replicate with
    | .error e => .error e
    | .ok _ => .ok (g, sl, 0)
  | r + 1, g, sl =>
    match g.can_accept_another_replicate with
    | .error e => .error e
    | .ok false => .ok (g, sl, r + 1)
    | .ok true =>
        mergeWhile sample r { g with replicates := g.replicates + 1 } (sl ++ [sample])

/-- The merge scan of `Workflow.add_input` (`components.py` lines 296-311):
walk the entries in insertion order; on each entry equal (`InputFile.eq`) to
the incoming file, run `mergeWhile`; `break` once the incoming file has no
replicates left.  The incoming file's (mutated) replicate count rides along,
since `__eq__` depends on it.  Returns the updated entry list and the
incoming file with its remaining replicate count. -/
def mergeScan (sample : Option String) :
    List WEntry → InputFile → Except WError (List WEntry × InputFile)
  | [], f => .ok ([], f)
  | (g, sl) :: rest, f =>
    if InputFile.eq f g then
      match mergeWhile sample f.replicates g sl with
      | .error e => .error e
      | .ok (g', sl', r') =>
          if r' = 0 then .ok ((g', sl') :: rest, { f with replicates := 0 })
          else
            match mergeScan sample rest { f with replicates := r' } with
            | .error e => .error e
            | .ok (rest', f') => .ok ((g', sl') :: rest', f')
    else
      match mergeScan sample rest f with
      | .error e => .error e
      | .ok (rest', f') => .ok ((g, sl) :: rest', f')

/-- The `sampletracking_broken` flag computed by `Workflow.add_input`
(`components.py` lines 265-280): when a sample is supplied, the flag is set
for a multi-replicate recipe or an untracked workflow; when no sample is
supplied, it is set for a tracked workflow; it is cleared while the workflow
holds zero crucibles. -/
def sampletracking_broken (w : Workflow) (f : InputFile) (sample : Option String) : Bool :=
  if w.required_crucibles = 0 then false
  else if sample.isSome then
    decide (1 < f.replicates) || !w.samples_are_being_tracked
  else w.samples_are_being_tracked

/-- `Workflow.add_input` (`components.py` lines 246-316): capacity check
against the incoming file's full replicate count, then the sample-tracking
check (waived while the workflow holds zero crucibles), then the merge scan
(only when the incoming file allows replicates), and finally the append of
any unmerged remainder as a brand-new entry whose sample list is the
one-element list `[sample]`. -/
def Workflow.add_input (w : Workflow) (f : InputFile) (sample : Option String) :
    Except WError Workflow :=
  if MAX_CRUCIBLES < w.required_crucibles + f.replicates then
    .error .workflowFull
  else if sampletracking_broken w f sample then
    .error .sampleTracking
  else
    match (if f.allow_replicates then mergeScan sample w.inputs f
           else .ok (w.inputs, f)) with
    | .error e => .error e
    | .ok (inputs', f') =>
        if 0 < f'.replicates then
          .ok { w with inputs := inputs' ++ [(f', [sample])] }
        else
          .ok { w with inputs := inputs' }

/-- Stable insertion of an entry into a list sorted by descending heating
duration: the entry goes before the first element whose key is not larger,
matching the stability of Python `sorted(..., reverse=True)`. -/
def insertByHeating (e : WEntry) : List WEntry → List WEntry
  | [] => [e]
  | x :: xs =>
    if x.1.heating_duration ≤ e.1.heating_duration then e :: x :: xs
    else x :: insertByHeating e xs

/-- `sorted(self.__inputs, key=lambda x: x[0].heating_duration, reverse=True)`
(`components.py` lines 341-345): stable sort by descending heating
duration. -/
def sortByHeatingDesc : List WEntry → List WEntry
  | [] => []
  | x :: xs => insertByHeating x (sortByHeatingDesc xs)

/-- The document emitted by `Workflow.to_json`. -/
structure WorkflowDoc where
  WorkflowName : String
  Quadrant : ℤ
  InputFile : List PosJson
deriving DecidableEq

/-- `Workflow.to_json` (`components.py` lines 318-358): reject a tracking
request on an untracked workflow, reject insufficient positions, then emit
the entries sorted by descending heating duration zipped with the available
positions.  The optional second component is the position-to-samples map
returned when tracking is requested. -/
def Workflow.to_json (w : Workflow) (quadrant_index : ℤ)
    (available_positions : List ℤ) (return_sample_tracking : Bool) :
    Except String (WorkflowDoc × Option (List (ℤ × List (Option String)))) :=
  if return_sample_tracking ∧ ¬ w.samples_are_being_tracked then
    .error "not tracking samples for this workflow"
  else if available_positions.length < w.required_jars then
    .error "insufficient available mixing pots"
  else
    let pairs := (sortByHeatingDesc w.inputs).zip available_positions
    let doc : WorkflowDoc :=
      { WorkflowName := w.name
        Quadrant := quadrant_index
        InputFile := pairs.map (fun ep => ep.1.1.to_labman_json ep.2) }
    if return_sample_tracking then
      .ok (doc, some (pairs.map (fun ep => (ep.2, ep.1.2))))
    else
      .ok (doc, none)

/-- Workflows reachable from an empty workflow by successful `add_input`
calls whose arguments satisfy `P`. -/
inductive ReachableP (P : InputFile → Option String → Prop) : Workflow → Prop
  | empty (name : String) : ReachableP P { name := name, inputs := [] }
  | step {w w' : Workflow} (f : InputFile) (s : Option String) :
      ReachableP P w → P f s → w.add_input f s = .ok w' → ReachableP P w'

/-- How one merge pass transforms a stored entry: `k` replicates were folded
in, `k` copies of the incoming sample were appended to its sample list, and
when `k > 0` the entry's growth was gated by `can_accept_another_replicate`. -/
def entryRel (s : Option String) (e e' : WEntry) : Prop :=
  ∃ k, e'.1 = { e.1 with replicates := e.1.replicates + k } ∧
       e'.2 = e.2 ++ List.replicate k s ∧
       (k = 0 ∨ (e.1.allow_replicates = true ∧ e.1.ethanol_volume ≠ 0 ∧
                 (e'.1.replicates : ℤ) ≤ e.1.max_replicates_val))

/-! ### Concrete instances used in counterexamples and witnesses -/

/-- A typical valid input file: one powder, 10 mL ethanol, one replicate. -/
def baseFile : InputFile :=
  { powder_dispenses := [("A", 1)]
    ethanol_volume := 10000
    transfer_volume := 10000
    heating_duration := 100
    mixer_speed := 2000
    mixer_duration := 540
    min_transfer_mass := 5
    allow_replicates := true
    replicates := 1
    time_added := 0 }

/-- Two replicates, 10 mL ethanol (so `max_replicates = 2`). -/
def fileR2 : InputFile := { baseFile with replicates := 2 }

/-- Two replicates of a 22 mL recipe: valid for the constructor, yet its own
`max_replicates` is `floor(22000/22000) = 1`. -/
def fileJumbo : InputFile :=
  { baseFile with ethanol_volume := 22000, transfer_volume := 22000, replicates := 2 }

/-- Fifteen replicates of a small recipe. -/
def file15 : InputFile :=
  { baseFile with ethanol_volume := 1000, transfer_volume := 1000, replicates := 15 }

/-- Sixteen replicates of a small recipe. -/
def file16 : InputFile :=
  { baseFile with ethanol_volume := 1000, transfer_volume := 1000, replicates := 16 }

/-- A workflow already holding 15 crucibles. -/
def wf15 : Workflow := { name := "wf", inputs := [(file15, [none])] }

/-- A workflow already holding 16 crucibles (full), in untracked mode. -/
def wf16 : Workflow := { name := "wf", inputs := [(file16, [none])] }

/-- Mass `3/200000` g = `0.000015` g: rounding it at 5 decimals (to `0.00002`)
does not commute with scaling by the replicate count. -/
def fileTinyMass1 : InputFile :=
  { baseFile with powder_dispenses := [("X", 3/200000)] }

/-- Same per-replicate parameters as `fileTinyMass1` but 2 replicates and a
different `time_added`. -/
def fileTinyMass2 : InputFile :=
  { baseFile with powder_dispenses := [("X", 3/200000)], replicates := 2, time_added := 1 }

/-- Mass `0.1` g with two replicates, for the round-trip counterexample. -/
def fileRoundTrip : InputFile :=
  { baseFile with powder_dispenses := [("A", 1/10)], heating_duration := 5400, replicates := 2 }

/-- A recipe with `ethanol_volume = 0` (admitted by the range check). -/
def fileZeroEthanol : InputFile :=
  { baseFile with ethanol_volume := 0, transfer_volume := 5 }

/-- A workflow holding one entry equal to `fileZeroEthanol`. -/
def wfZero : Workflow := { name := "wf", inputs := [(fileZeroEthanol, [none])] }

/-- A workflow in tracked mode: one entry whose sample list holds `"S1"`. -/
def wfTrack : Workflow := { name := "w", inputs := [(baseFile, [some "S1"])] }

/-- The workflow obtained by adding `baseFile` (no sample) to `wf15`. -/
def wf15' : Workflow := { name := "wf", inputs := [(file15, [none]), (baseFile, [none])] }

/-- Entries with heating durations 100, 500 and 300 for the serialization
ordering example. -/
def wfHeat : Workflow :=
  { name := "wf"
    inputs := [(baseFile, [none]),
               ({ baseFile with heating_duration := 500, time_added := 1 }, [none]),
               ({ baseFile with heating_duration := 300, time_added := 2 }, [none])] }

attribute [local semireducible] Rat.mul Rat.inv Rat.add Rat.sub

/-! ### Arithmetic helper lemmas -/

theorem rat_floor_eq_floor (x : ℚ) : Rat.floor x = ⌊x⌋ := rfl

theorem roundHalfEven_intCast (n : ℤ) : roundHalfEven (n : ℚ) = n := by
  unfold roundHalfEven
  rw [rat_floor_eq_floor, Int.floor_intCast]
  norm_num

theorem pyRound5_of_mul_eq_int {x : ℚ} {k : ℤ} (h : x * 100000 = (k : ℚ)) :
    pyRound5 x = x := by
  unfold pyRound5
  rw [h, roundHalfEven_intCast, ← h]
  field_simp

theorem pyRound5_idem (x : ℚ) : pyRound5 (pyRound5 x) = pyRound5 x := by
  refine @pyRound5_of_mul_eq_int _ (roundHalfEven (x * 100000)) ?_
  unfold pyRound5
  field_simp

theorem pyInt_intCast (n : ℤ) : pyInt (n : ℚ) = n := by
  unfold pyInt
  split_ifs with h
  · rw [← Int.cast_neg, rat_floor_eq_floor, Int.floor_intCast]
    omega
  · rw [rat_floor_eq_floor, Int.floor_intCast]

theorem pyInt_idem (x : ℚ) : pyInt ((pyInt x : ℤ) : ℚ) = pyInt x :=
  pyInt_intCast _

theorem pyInt_nonneg {x : ℚ} (h : 0 ≤ x) : 0 ≤ pyInt x := by
  unfold pyInt
  rw [if_neg (not_lt.mpr h), rat_floor_eq_floor]
  exact Int.floor_nonneg.mpr h

theorem pyInt_le {x : ℚ} (h : 0 ≤ x) : (pyInt x : ℚ) ≤ x := by
  unfold pyInt
  rw [if_neg (not_lt.mpr h), rat_floor_eq_floor]
  exact Int.floor_le x

theorem roundHalfEven_nonneg {y : ℚ} (h : 0 ≤ y) : 0 ≤ roundHalfEven y := by
  unfold roundHalfEven
  rw [rat_floor_eq_floor]
  have hf : 0 ≤ ⌊y⌋ := Int.floor_nonneg.mpr h
  split_ifs <;> omega

theorem roundHalfEven_le {y : ℚ} {n : ℤ} (h : y ≤ (n : ℚ)) : roundHalfEven y ≤ n := by
  unfold roundHalfEven
  rw [rat_floor_eq_floor]
  have hf : ⌊y⌋ ≤ n := by
    have := Int.floor_mono h
    rwa [Int.floor_intCast] at this
  rcases lt_or_eq_of_le hf with hlt | heq
  · split_ifs <;> omega
  · have hy : y - (⌊y⌋ : ℚ) ≤ 0 := by
      rw [heq]
      exact sub_nonpos.mpr h
    have h2 : ¬ (1/2 : ℚ) < y - (⌊y⌋ : ℚ) := by
      intro hc
      linarith
    have h1 : y - (⌊y⌋ : ℚ) < 1/2 := by linarith
    rw [if_pos h1]
    omega

/-! ### Constructor lemmas -/

theorem init_ok_shape {pd : List (String × ℚ)} {hd : Option ℚ} {ev : ℚ}
    {tv : Option ℚ} {ms md : ℚ} {mt : Option ℚ} {r : ℕ} {al : Bool} {t : ℕ}
    {f : InputFile} (h : InputFile.init pd hd ev tv ms md mt r al t = .ok f) :
    f = { powder_dispenses := pd
          ethanol_volume := ev
          transfer_volume := pyOrQ tv ev
          heating_duration := pyOrQ hd (ev * (90 * 60 / 10000))
          mixer_speed := ms
          mixer_duration := md
          min_transfer_mass := defaultMinTransferMass mt (pyOrQ tv ev) pd
          allow_replicates := al
          replicates := r
          time_added := t } := by
  unfold InputFile.init at h
  split_ifs at h
  cases h
  rfl

theorem init_ok_facts {pd : List (String × ℚ)} {hd : Option ℚ} {ev : ℚ}
    {tv : Option ℚ} {ms md : ℚ} {mt : Option ℚ} {r : ℕ} {al : Bool} {t : ℕ}
    {f : InputFile} (h : InputFile.init pd hd ev tv ms md mt r al t = .ok f) :
    pd ≠ [] ∧ (∀ pm ∈ pd, 0 < pm.2) ∧
    0 ≤ ev ∧ ev ≤ MAX_JAR_VOLUME_UL ∧
    0 ≤ f.heating_duration ∧ f.heating_duration ≤ 14400 ∧
    0 ≤ md ∧ md ≤ 900 ∧ (al = false → r ≤ 1) := by
  have hshape := init_ok_shape h
  unfold InputFile.init at h
  split_ifs at h with h1 h2 h3 h4 h5 h6
  push_neg at h3 h4 h5
  have hheat : f.heating_duration = pyOrQ hd (ev * (90 * 60 / 10000)) := by
    rw [hshape]
  refine ⟨?_, ?_, h3.1, h3.2, ?_, ?_, h5.1, by linarith [h5.2], ?_⟩
  · intro hc
    exact h1 (by simp [hc])
  · intro pm hpm
    by_contra hc
    exact h2 (by
      simp only [List.any_eq_true]
      exact ⟨pm, hpm, by simpa using hc⟩)
  · rw [hheat]
    exact h4.1
  · rw [hheat]
    linarith [h4.2]
  · intro hal
    by_contra hc
    exact h6 ⟨hal, by omega⟩

/-! ### Merge machinery lemmas -/

theorem max_replicates_ok {f : InputFile} (h : f.ethanol_volume ≠ 0) :
    f.max_replicates = .ok f.max_replicates_val := by
  unfold InputFile.max_replicates InputFile.max_replicates_val
  rw [if_neg h]

theorem max_replicates_error {f : InputFile} {e : WError}
    (h : f.max_replicates = .error e) : f.ethanol_volume = 0 ∧ e = .zeroDivision := by
  unfold InputFile.max_replicates at h
  split_ifs at h with h0
  · cases h
    exact ⟨h0, rfl⟩

theorem can_accept_ok_true {g : InputFile}
    (h : g.can_accept_another_replicate = .ok true) :
    g.allow_replicates = true ∧ g.ethanol_volume ≠ 0 ∧
    (g.replicates : ℤ) < g.max_replicates_val := by
  unfold InputFile.can_accept_another_replicate at h
  split_ifs at h with h1
  · simp at h
  · by_cases h0 : g.ethanol_volume = 0
    · have hmr : g.max_replicates = .error .zeroDivision := by
        rw [InputFile.max_replicates, if_pos h0]
      rw [hmr] at h
      simp [Except.map] at h
    · rw [max_replicates_ok h0] at h
      simp only [Except.map, Except.ok.injEq, decide_eq_true_eq] at h
      exact ⟨by simpa using h1, h0, h⟩

theorem can_accept_error {g : InputFile} {e : WError}
    (h : g.can_accept_another_replicate = .error e) :
    g.allow_replicates = true ∧ g.ethanol_volume = 0 ∧ e = .zeroDivision := by
  unfold InputFile.can_accept_another_replicate at h
  by_cases h1 : g.allow_replicates = false
  · rw [if_pos h1] at h
    cases h
  · rw [if_neg h1] at h
    by_cases h0 : g.ethanol_volume = 0
    · have hmr : g.max_replicates = .error .zeroDivision := by
        rw [InputFile.max_replicates, if_pos h0]
      rw [hmr] at h
      simp only [Except.map, Except.error.injEq] at h
      exact ⟨by simpa using h1, h0, h.symm⟩
    · rw [max_replicates_ok h0] at h
      simp [Except.map] at h

theorem mergeWhile_error {s : Option String} :
    ∀ (r : ℕ) (g : InputFile) (sl : List (Option String)) (e : WError),
      mergeWhile s r g sl = .error e → e = .zeroDivision := by
  intro r
  induction r with
  | zero =>
      intro g sl e h
      unfold mergeWhile at h
      cases hca : g.can_accept_another_replicate with
      | error e' =>
          rw [hca] at h
          cases h
          exact (can_accept_error hca).2.2
      | ok b =>
          rw [hca] at h
          cases h
  | succ r ih =>
      intro g sl e h
      unfold mergeWhile at h
      cases hca : g.can_accept_another_replicate with
      | error e' =>
          rw [hca] at h
          cases h
          exact (can_accept_error hca).2.2
      | ok b =>
          rw [hca] at h
          cases b with
          | false => cases h
          | true => exact ih _ _ _ h

theorem mergeWhile_spec {s : Option String} :
    ∀ (r : ℕ) (g : InputFile) (sl : List (Option String))
      (g' : InputFile) (sl' : List (Option String)) (r' : ℕ),
      mergeWhile s r g sl = .ok (g', sl', r') →
      ∃ k, k ≤ r ∧ g' = { g with replicates := g.replicates + k } ∧
        sl' = sl ++ List.replicate k s ∧ r' = r - k ∧
        (k = 0 ∨ (g.allow_replicates = true ∧ g.ethanol_volume ≠ 0 ∧
                  (g'.replicates : ℤ) ≤ g.max_replicates_val)) := by
  intro r
  induction r with
  | zero =>
      intro g sl g' sl' r' h
      unfold mergeWhile at h
      cases hca : g.can_accept_another_replicate with
      | error e' =>
          rw [hca] at h
          cases h
      | ok b =>
          rw [hca] at h
          cases h
          exact ⟨0, Nat.le_refl 0, by simp, by simp, rfl, Or.inl rfl⟩
  | succ r ih =>
      intro g sl g' sl' r' h
      unfold mergeWhile at h
      cases hca : g.can_accept_another_replicate with
      | error e' =>
          rw [hca] at h
          cases h
      | ok b =>
          rw [hca] at h
          cases b with
          | false =>
              cases h
              exact ⟨0, Nat.zero_le _, by simp, by simp, by omega, Or.inl rfl⟩
          | true =>
              obtain ⟨hallow, hnz, hlt⟩ := can_accept_ok_true hca
              obtain ⟨k', hk'le, hg, hsl, hr, hbound⟩ := ih _ _ _ _ _ h
              refine ⟨k' + 1, by omega, ?_, ?_, by omega, ?_⟩
              · rw [hg]
                congr 1
                show g.replicates + 1 + k' = g.replicates + (k' + 1)
                omega
              · rw [hsl, List.append_assoc]
                congr 1
              · refine Or.inr ⟨hallow, hnz, ?_⟩
                rcases hbound with h0 | ⟨_, _, hle⟩
                · subst h0
                  have hrep : g'.replicates = g.replicates + 1 := by
                    rw [hg]
                  rw [hrep]
                  push_cast
                  omega
                · exact hle

theorem entryRel_refl (s : Option String) (e : WEntry) : entryRel s e e := by
  refine ⟨0, ?_, by simp, Or.inl rfl⟩
  show e.1 = { e.1 with replicates := e.1.replicates + 0 }
  rfl

theorem sumReps_append (a b : List WEntry) :
    sumReps (a ++ b) = sumReps a + sumReps b := by
  simp [sumReps]

theorem sumReps_cons (e : WEntry) (l : List WEntry) :
    sumReps (e :: l) = e.1.replicates + sumReps l := by
  simp [sumReps]

theorem mergeScan_error {s : Option String} :
    ∀ (l : List WEntry) (f : InputFile) (e : WError),
      mergeScan s l f = .error e → e = .zeroDivision := by
  intro l
  induction l with
  | nil =>
      intro f e h
      unfold mergeScan at h
      cases h
  | cons hd tl ih =>
      intro f e h
      obtain ⟨g, sl⟩ := hd
      unfold mergeScan at h
      split_ifs at h with heq
      · cases hmw : mergeWhile s f.replicates g sl with
        | error e' =>
            rw [hmw] at h
            cases h
            exact mergeWhile_error _ _ _ _ hmw
        | ok res =>
            obtain ⟨g', sl', r'⟩ := res
            rw [hmw] at h
            simp only at h
            by_cases hr0 : r' = 0
            · rw [if_pos hr0] at h
              cases h
            · rw [if_neg hr0] at h
              cases hrec : mergeScan s tl { f with replicates := r' } with
              | error e' =>
                  rw [hrec] at h
                  cases h
                  exact ih _ _ hrec
              | ok res' =>
                  rw [hrec] at h
                  cases h
      · cases hrec : mergeScan s tl f with
        | error e' =>
            rw [hrec] at h
            cases h
            exact ih _ _ hrec
        | ok res' =>
            rw [hrec] at h
            cases h

theorem mergeScan_spec {s : Option String} :
    ∀ (l : List WEntry) (f : InputFile) (l' : List WEntry) (f' : InputFile),
      mergeScan s l f = .ok (l', f') →
      List.Forall₂ (entryRel s) l l' ∧
      f' = { f with replicates := f'.replicates } ∧
      f'.replicates ≤ f.replicates ∧
      sumReps l' + f'.replicates = sumReps l + f.replicates := by
  intro l
  induction l with
  | nil =>
      intro f l' f' h
      unfold mergeScan at h
      cases h
      refine ⟨List.Forall₂.nil, ?_, Nat.le_refl _, rfl⟩
      show f = { f with replicates := f.replicates }
      rfl
  | cons hd tl ih =>
      intro f l' f' h
      obtain ⟨g, sl⟩ := hd
      unfold mergeScan at h
      split_ifs at h with heq
      · cases hmw : mergeWhile s f.replicates g sl with
        | error e' =>
            rw [hmw] at h
            cases h
        | ok res =>
            obtain ⟨g', sl', r'⟩ := res
            rw [hmw] at h
            simp only at h
            obtain ⟨k, hkle, hg, hsl, hr, hbound⟩ := mergeWhile_spec _ _ _ _ _ _ hmw
            by_cases hr0 : r' = 0
            · rw [if_pos hr0] at h
              cases h
              have hk : k = f.replicates := by omega
              refine ⟨List.Forall₂.cons ⟨k, hg, hsl, hbound⟩ ?_, rfl, Nat.zero_le _, ?_⟩
              · exact List.forall₂_same.mpr (fun e _ => entryRel_refl s e)
              · rw [sumReps_cons, sumReps_cons, hg]
                show g.replicates + k + sumReps tl + 0 = g.replicates + sumReps tl + f.replicates
                omega
            · rw [if_neg hr0] at h
              cases hrec : mergeScan s tl { f with replicates := r' } with
              | error e' =>
                  rw [hrec] at h
                  cases h
              | ok res' =>
                  obtain ⟨rest', f2⟩ := res'
                  rw [hrec] at h
                  obtain ⟨hfa, hshape, hle, hsum⟩ := ih _ _ _ hrec
                  have hshape2 : f2 = { f with replicates := f2.replicates } := by
                    rw [hshape]
                  have hle2 : f2.replicates ≤ f.replicates := by
                    have hrr : ({ f with replicates := r' } : InputFile).replicates = r' := rfl
                    omega
                  have hsum2 : sumReps rest' + f2.replicates = sumReps tl + r' := by
                    have hrr : ({ f with replicates := r' } : InputFile).replicates = r' := rfl
                    omega
                  cases h
                  refine ⟨List.Forall₂.cons ⟨k, hg, hsl, hbound⟩ hfa, hshape2, hle2, ?_⟩
                  rw [sumReps_cons, sumReps_cons, hg]
                  show g.replicates + k + sumReps rest' + f'.replicates
                      = g.replicates + sumReps tl + f.replicates
                  omega
      · cases hrec : mergeScan s tl f with
        | error e' =>
            rw [hrec] at h
            cases h
        | ok res' =>
            obtain ⟨rest', f2⟩ := res'
            rw [hrec] at h
            obtain ⟨hfa, hshape, hle, hsum⟩ := ih _ _ _ hrec
            cases h
            refine ⟨List.Forall₂.cons (entryRel_refl s _) hfa, hshape, hle, ?_⟩
            rw [sumReps_cons, sumReps_cons]
            omega

theorem add_input_ok_spec {w : Workflow} {f : InputFile} {s : Option String}
    {w' : Workflow} (h : w.add_input f s = .ok w') :
    w.required_crucibles + f.replicates ≤ MAX_CRUCIBLES ∧
    w'.name = w.name ∧
    ∃ l' fr, List.Forall₂ (entryRel s) w.inputs l' ∧ fr ≤ f.replicates ∧
      sumReps l' + fr = sumReps w.inputs + f.replicates ∧
      w'.inputs = (if 0 < fr then l' ++ [({ f with replicates := fr }, [s])] else l') := by
  unfold Workflow.add_input at h
  by_cases hcap : MAX_CRUCIBLES < w.required_crucibles + f.replicates
  · rw [if_pos hcap] at h
    cases h
  rw [if_neg hcap] at h
  by_cases htr : sampletracking_broken w f s = true
  · rw [if_pos htr] at h
    cases h
  rw [if_neg htr] at h
  cases hscan : (if f.allow_replicates then mergeScan s w.inputs f
                 else .ok (w.inputs, f)) with
  | error e =>
      rw [hscan] at h
      cases h
  | ok res =>
      obtain ⟨inputs', f2⟩ := res
      rw [hscan] at h
      have hspec : List.Forall₂ (entryRel s) w.inputs inputs' ∧
          f2.replicates ≤ f.replicates ∧
          sumReps inputs' + f2.replicates = sumReps w.inputs + f.replicates ∧
          f2 = { f with replicates := f2.replicates } := by
        by_cases hal : f.allow_replicates
        · rw [if_pos hal] at hscan
          obtain ⟨ha, hb, hc, hd⟩ := mergeScan_spec _ _ _ _ hscan
          exact ⟨ha, hc, hd, hb⟩
        · rw [if_neg hal] at hscan
          cases hscan
          refine ⟨List.forall₂_same.mpr (fun e _ => entryRel_refl s e),
            Nat.le_refl _, rfl, ?_⟩
          show f = { f with replicates := f.replicates }
          rfl
      obtain ⟨hfa, hle, hsum, hshape⟩ := hspec
      refine ⟨by omega, ?_, inputs', f2.replicates, hfa, hle, hsum, ?_⟩
      · simp only at h
        split_ifs at h <;> (cases h; rfl)
      · simp only at h
        split_ifs at h with hpos
        · cases h
          rw [if_pos hpos, ← hshape]
        · cases h
          rw [if_neg hpos]

theorem add_input_full_iff (w : Workflow) (f : InputFile) (s : Option String) :
    w.add_input f s = .error .workflowFull ↔
    MAX_CRUCIBLES < w.required_crucibles + f.replicates := by
  unfold Workflow.add_input
  constructor
  · intro h
    by_contra hcap
    rw [if_neg hcap] at h
    by_cases htr : sampletracking_broken w f s = true
    · rw [if_pos htr] at h
      cases h
    · rw [if_neg htr] at h
      cases hscan : (if f.allow_replicates then mergeScan s w.inputs f
                     else .ok (w.inputs, f)) with
      | error e =>
          rw [hscan] at h
          simp only at h
          cases h
          by_cases hal : f.allow_replicates
          · rw [if_pos hal] at hscan
            exact absurd (mergeScan_error _ _ _ hscan) (by intro hc; cases hc)
          · rw [if_neg hal] at hscan
            cases hscan
      | ok res =>
          obtain ⟨inputs', f2⟩ := res
          rw [hscan] at h
          simp only at h
          split_ifs at h
  · intro h
    rw [if_pos h]

theorem add_input_sampleTracking_iff (w : Workflow) (f : InputFile) (s : Option String)
    (hcap : w.required_crucibles + f.replicates ≤ MAX_CRUCIBLES) :
    w.add_input f s = .error .sampleTracking ↔ sampletracking_broken w f s = true := by
  unfold Workflow.add_input
  rw [if_neg (by omega)]
  constructor
  · intro h
    by_contra htr
    rw [if_neg htr] at h
    cases hscan : (if f.allow_replicates then mergeScan s w.inputs f
                   else .ok (w.inputs, f)) with
    | error e =>
        rw [hscan] at h
        simp only at h
        cases h
        by_cases hal : f.allow_replicates
        · rw [if_pos hal] at hscan
          exact absurd (mergeScan_error _ _ _ hscan) (by intro hc; cases hc)
        · rw [if_neg hal] at hscan
          cases hscan
    | ok res =>
        obtain ⟨inputs', f2⟩ := res
        rw [hscan] at h
        simp only at h
        split_ifs at h
  · intro h
    rw [if_pos h]

theorem sampletracking_broken_iff (w : Workflow) (f : InputFile) (s : Option String) :
    sampletracking_broken w f s = true ↔
    (1 ≤ w.required_crucibles ∧
      ((s.isSome = true ∧ 1 < f.replicates) ∨
       (s.isSome = true ∧ w.samples_are_being_tracked = false) ∨
       (s = none ∧ w.samples_are_being_tracked = true))) := by
  unfold sampletracking_broken
  by_cases h0 : w.required_crucibles = 0
  · rw [if_pos h0]
    simp [h0]
  · rw [if_neg h0]
    cases s with
    | none =>
        rw [if_neg (by simp : ¬ (none : Option String).isSome = true)]
        constructor
        · intro h
          exact ⟨by omega, Or.inr (Or.inr ⟨rfl, h⟩)⟩
        · rintro ⟨-, ⟨h1, -⟩ | ⟨h1, -⟩ | ⟨-, h2⟩⟩
          · simp at h1
          · simp at h1
          · exact h2
    | some x =>
        have hcond : (some x).isSome = true := rfl
        rw [if_pos hcond]
        rw [Bool.or_eq_true, decide_eq_true_iff, Bool.not_eq_true']
        constructor
        · rintro (h1 | h1)
          · exact ⟨by omega, Or.inl ⟨rfl, h1⟩⟩
          · exact ⟨by omega, Or.inr (Or.inl ⟨rfl, h1⟩)⟩
        · rintro ⟨-, ⟨-, h1⟩ | ⟨-, h1⟩ | ⟨h2, -⟩⟩
          · exact Or.inl h1
          · exact Or.inr h1
          · cases h2

theorem add_input_ok_not_broken {w : Workflow} {f : InputFile} {s : Option String}
    {w' : Workflow} (h : w.add_input f s = .ok w') :
    sampletracking_broken w f s = false := by
  unfold Workflow.add_input at h
  by_cases hcap : MAX_CRUCIBLES < w.required_crucibles + f.replicates
  · rw [if_pos hcap] at h
    cases h
  rw [if_neg hcap] at h
  by_cases htr : sampletracking_broken w f s = true
  · rw [if_pos htr] at h
    cases h
  · exact Bool.not_eq_true _ |>.mp htr

theorem add_input_ok_tracking {w : Workflow} {f : InputFile} {s : Option String}
    {w' : Workflow} (h : w.add_input f s = .ok w')
    (hnz : 1 ≤ w.required_crucibles) :
    (s.isSome = true → f.replicates ≤ 1 ∧ w.samples_are_being_tracked = true) ∧
    (s = none → w.samples_are_being_tracked = false) := by
  have hb := add_input_ok_not_broken h
  have hiff := sampletracking_broken_iff w f s
  rw [hb] at hiff
  simp only [Bool.false_eq_true, false_iff] at hiff
  push_neg at hiff
  constructor
  · intro hsome
    refine ⟨(hiff hnz).1 hsome, ?_⟩
    have htrk := (hiff hnz).2.1 hsome
    simpa using htrk
  · intro hnone
    have htrk := (hiff hnz).2.2 hnone
    simpa using htrk

/-- Membership of a non-null slot survives a merge pass over the entry list. -/
theorem forall2_preserves_some {s : Option String} {l l' : List WEntry}
    (h : List.Forall₂ (entryRel s) l l') :
    ∀ e ∈ l, (∃ x ∈ e.2, x.isSome = true) →
      ∃ e' ∈ l', ∃ x ∈ e'.2, x.isSome = true := by
  induction h with
  | nil =>
      intro e he
      cases he
  | cons hr hrest ih =>
      intro e he hx
      rcases List.mem_cons.mp he with he | he
      · obtain ⟨k, -, hsl, -⟩ := hr
        rw [he] at hx
        obtain ⟨x, hxm, hxs⟩ := hx
        refine ⟨_, List.mem_cons_self _ _, ?_⟩
        rw [hsl]
        exact ⟨x, List.mem_append_left _ hxm, hxs⟩
      · obtain ⟨e', he', hx'⟩ := ih e he hx
        exact ⟨e', List.mem_cons_of_mem _ he', hx'⟩

/-- When the incoming sample is null, a merge pass adds only null slots. -/
theorem forall2_none_slots {l l' : List WEntry}
    (h : List.Forall₂ (entryRel none) l l')
    (hnull : ∀ e ∈ l, ∀ x ∈ e.2, x = none) :
    ∀ e' ∈ l', ∀ x ∈ e'.2, x = none := by
  induction h with
  | nil =>
      intro e' he'
      cases he'
  | cons hr hrest ih =>
      intro e' he' x hx
      rcases List.mem_cons.mp he' with he' | he'
      · obtain ⟨k, -, hsl, -⟩ := hr
        subst he'
        rw [hsl] at hx
        rcases List.mem_append.mp hx with hx | hx
        · exact hnull _ (List.mem_cons_self _ _) x hx
        · exact List.eq_of_mem_replicate hx
      · exact ih (fun e he => hnull e (List.mem_cons_of_mem _ he)) e' he' x hx

theorem forall2_mem_right {s : Option String} {l l' : List WEntry}
    (h : List.Forall₂ (entryRel s) l l') :
    ∀ e' ∈ l', ∃ e ∈ l, entryRel s e e' := by
  induction h with
  | nil =>
      intro e' he'
      cases he'
  | cons hr hrest ih =>
      intro e' he'
      rcases List.mem_cons.mp he' with he' | he'
      · exact ⟨_, List.mem_cons_self _ _, he' ▸ hr⟩
      · obtain ⟨e, he, hrel⟩ := ih e' he'
        exact ⟨e, List.mem_cons_of_mem _ he, hrel⟩

theorem entryRel_reps_ge {s : Option String} {e e' : WEntry} (h : entryRel s e e') :
    e.1.replicates ≤ e'.1.replicates := by
  obtain ⟨k, hg, -, -⟩ := h
  rw [hg]
  show e.1.replicates ≤ e.1.replicates + k
  omega

theorem reachable_entry_reps_pos {P : InputFile → Option String → Prop} {w : Workflow}
    (h : ReachableP P w) : ∀ e ∈ w.inputs, 1 ≤ e.1.replicates := by
  induction h with
  | empty name =>
      intro e he
      cases he
  | step f s hre hP hok ih =>
      obtain ⟨-, -, l', fr, hfa, -, -, hinputs⟩ := add_input_ok_spec hok
      intro e he
      rw [hinputs] at he
      have hmerged : ∀ e' ∈ l', 1 ≤ e'.1.replicates := by
        intro e' he'
        obtain ⟨e0, he0, hrel⟩ := forall2_mem_right hfa e' he'
        exact le_trans (ih e0 he0) (entryRel_reps_ge hrel)
      split_ifs at he with hfr
      · rcases List.mem_append.mp he with he | he
        · exact hmerged e he
        · have : e = ({ f with replicates := fr }, [s]) := by simpa using he
          rw [this]
          exact hfr
      · exact hmerged e he

theorem sumReps_singleton (e : WEntry) : sumReps [e] = e.1.replicates := by
  simp [sumReps]

theorem reachable_crucibles_le {P : InputFile → Option String → Prop} {w : Workflow}
    (h : ReachableP P w) : w.required_crucibles ≤ MAX_CRUCIBLES := by
  induction h with
  | empty name =>
      show sumReps [] ≤ MAX_CRUCIBLES
      simp [sumReps, MAX_CRUCIBLES]
  | @step w0 w' f s hre hP hok ih =>
      obtain ⟨hcap, -, l', fr, hfa, hle, hsum, hinputs⟩ := add_input_ok_spec hok
      have hwc : w0.required_crucibles = sumReps w0.inputs := rfl
      show sumReps w'.inputs ≤ MAX_CRUCIBLES
      rw [hinputs]
      split_ifs with hfr
      · rw [sumReps_append, sumReps_singleton]
        show sumReps l' + fr ≤ MAX_CRUCIBLES
        omega
      · omega

theorem reachable_inputs_nil {P : InputFile → Option String → Prop} {w : Workflow}
    (h : ReachableP P w) (h0 : w.required_crucibles = 0) : w.inputs = [] := by
  cases hi : w.inputs with
  | nil => rfl
  | cons e rest =>
      exfalso
      have hpos := reachable_entry_reps_pos h e (by rw [hi]; exact List.mem_cons_self _ _)
      have : w.required_crucibles = sumReps (e :: rest) := by
        rw [← hi]
        rfl
      rw [sumReps_cons] at this
      omega

theorem tracked_iff (w : Workflow) :
    w.samples_are_being_tracked = true ↔
    ∃ e ∈ w.inputs, ∃ x ∈ e.2, x.isSome = true := by
  unfold Workflow.samples_are_being_tracked
  simp [List.any_eq_true]

theorem untracked_iff (w : Workflow) :
    w.samples_are_being_tracked = false ↔
    ∀ e ∈ w.inputs, ∀ x ∈ e.2, x = none := by
  rw [← Bool.not_eq_true, tracked_iff]
  push_neg
  constructor
  · intro h e he x hx
    have := h e he x hx
    cases x with
    | none => rfl
    | some v => simp at this
  · intro h e he x hx
    rw [h e he x hx]
    simp

theorem entryRel_preserves_some {s : Option String} {e e' : WEntry}
    (h : entryRel s e e') (hx : ∃ x ∈ e.2, x.isSome = true) :
    ∃ x ∈ e'.2, x.isSome = true := by
  obtain ⟨k, -, hsl, -⟩ := h
  obtain ⟨x, hxm, hxs⟩ := hx
  rw [hsl]
  exact ⟨x, List.mem_append_left _ hxm, hxs⟩

theorem reachable_tracked_all {P : InputFile → Option String → Prop} {w : Workflow}
    (h : ReachableP P w) :
    w.samples_are_being_tracked = true →
    ∀ e ∈ w.inputs, ∃ x ∈ e.2, x.isSome = true := by
  induction h with
  | empty name =>
      intro htrk e he
      cases he
  | @step w0 w' f s hre hP hok ih =>
      intro htrk e he
      obtain ⟨hcap, -, l', fr, hfa, hle, hsum, hinputs⟩ := add_input_ok_spec hok
      by_cases h0 : w0.required_crucibles = 0
      · have hnil := reachable_inputs_nil hre h0
        have hl' : l' = [] := by
          rw [hnil] at hfa
          exact (List.forall₂_nil_left_iff.mp hfa)
        rw [hinputs, hl'] at he
        split_ifs at he with hfr
        · simp only [List.nil_append] at he
          have he' : e = ({ f with replicates := fr }, [s]) := by simpa using he
          have hw' : w'.inputs = [({ f with replicates := fr }, [s])] := by
            rw [hinputs, hl']
            rw [if_pos hfr]
            rfl
          obtain ⟨e2, he2, x, hxm, hxs⟩ := (tracked_iff w').mp htrk
          rw [hw'] at he2
          have he2' : e2 = ({ f with replicates := fr }, [s]) := by simpa using he2
          rw [he2'] at hxm
          have hxs' : x = s := by simpa using hxm
          rw [he']
          exact ⟨x, by simpa using hxm, hxs⟩
        · cases he
      · have htr := add_input_ok_tracking hok (by omega)
        cases s with
        | some y =>
            have hw0trk : w0.samples_are_being_tracked = true := (htr.1 rfl).2
            have hall := ih hw0trk
            have hmerged : ∀ e' ∈ l', ∃ x ∈ e'.2, x.isSome = true := by
              intro e' he'
              obtain ⟨e0, he0, hrel⟩ := forall2_mem_right hfa e' he'
              exact entryRel_preserves_some hrel (hall e0 he0)
            rw [hinputs] at he
            split_ifs at he with hfr
            · rcases List.mem_append.mp he with he | he
              · exact hmerged e he
              · have he' : e = ({ f with replicates := fr }, [some y]) := by simpa using he
                rw [he']
                exact ⟨some y, by simp, rfl⟩
            · exact hmerged e he
        | none =>
            exfalso
            have hw0trk : w0.samples_are_being_tracked = false := htr.2 rfl
            have hnull := (untracked_iff w0).mp hw0trk
            have hnull' := forall2_none_slots hfa hnull
            have huntrk : w'.samples_are_being_tracked = false := by
              rw [untracked_iff]
              intro e' he' x hx
              rw [hinputs] at he'
              split_ifs at he' with hfr
              · rcases List.mem_append.mp he' with he' | he'
                · exact hnull' e' he' x hx
                · have he2 : e' = ({ f with replicates := fr }, [none]) := by simpa using he'
                  rw [he2] at hx
                  simpa using hx
              · exact hnull' e' he' x hx
            rw [huntrk] at htrk
            cases htrk

theorem add_input_tracked_eq {w : Workflow} {f : InputFile} {s : Option String}
    {w' : Workflow} (h : w.add_input f s = .ok w')
    (hnz : 1 ≤ w.required_crucibles) :
    w'.samples_are_being_tracked = w.samples_are_being_tracked := by
  obtain ⟨hcap, -, l', fr, hfa, hle, hsum, hinputs⟩ := add_input_ok_spec h
  have htr := add_input_ok_tracking h hnz
  cases s with
  | some y =>
      have hw0trk : w.samples_are_being_tracked = true := (htr.1 rfl).2
      rw [hw0trk, tracked_iff]
      obtain ⟨e, he, hx⟩ := (tracked_iff w).mp hw0trk
      obtain ⟨e', he', hx'⟩ := forall2_preserves_some hfa e he hx
      refine ⟨e', ?_, hx'⟩
      rw [hinputs]
      split_ifs
      · exact List.mem_append_left _ he'
      · exact he'
  | none =>
      have hw0trk : w.samples_are_being_tracked = false := htr.2 rfl
      rw [hw0trk]
      rw [untracked_iff]
      have hnull := (untracked_iff w).mp hw0trk
      have hnull' := forall2_none_slots hfa hnull
      intro e' he' x hx
      rw [hinputs] at he'
      split_ifs at he' with hfr
      · rcases List.mem_append.mp he' with he' | he'
        · exact hnull' e' he' x hx
        · have he2 : e' = ({ f with replicates := fr }, [none]) := by simpa using he'
          rw [he2] at hx
          simpa using hx
      · exact hnull' e' he' x hx

theorem entryRel_fields {s : Option String} {e e' : WEntry} (h : entryRel s e e') :
    e'.1.ethanol_volume = e.1.ethanol_volume ∧
    e'.1.max_replicates_val = e.1.max_replicates_val := by
  obtain ⟨k, hg, -, -⟩ := h
  rw [hg]
  exact ⟨rfl, rfl⟩

theorem entryRel_growth {s : Option String} {e e' : WEntry} (h : entryRel s e e') :
    ∃ k, e'.1.replicates = e.1.replicates + k ∧ e'.2.length = e.2.length + k := by
  obtain ⟨k, hg, hsl, -⟩ := h
  refine ⟨k, ?_, ?_⟩
  · rw [hg]
  · rw [hsl]
    simp

/-! ### Claim theorems -/

/-- C1, counterexample: on an empty workflow, `add_input` of a 2-replicate
recipe succeeds and appends a brand-new entry with replicate count 2 whose
sample list has exactly one slot, not two. -/
theorem c1_counterexample :
    fileR2.replicates = 2 ∧
    ((Workflow.mk "w" []).add_input fileR2 none).map
      (fun w => w.inputs.map (fun e => (e.1.replicates, e.2.length)))
      = .ok [(2, 1)] ∧ (2 : ℕ) ≠ 1 := by
  refine ⟨by decide, by decide, by decide⟩

/-- C1 (amended): every brand-new entry appended by `add_input` carries the
one-element sample list `[sample]`; consequently, after any sequence of
successful `add_input` calls in which every added recipe had `replicates = 1`,
every entry's sample-list length equals that entry's replicate count. -/
theorem c1_amended :
    (∀ (w : Workflow) (f : InputFile) (s : Option String) (w' : Workflow),
      w.add_input f s = .ok w' →
      ∀ e ∈ w'.inputs.drop w.inputs.length, e.2 = [s]) ∧
    (∀ w : Workflow, ReachableP (fun f _ => f.replicates = 1) w →
      ∀ e ∈ w.inputs, e.2.length = e.1.replicates) := by
  constructor
  · intro w f s w' hok e he
    obtain ⟨-, -, l', fr, hfa, -, -, hinputs⟩ := add_input_ok_spec hok
    have hlen : w.inputs.length = l'.length := List.Forall₂.length_eq hfa
    rw [hinputs] at he
    split_ifs at he with hfr
    · rw [hlen, List.drop_left] at he
      have : e = ({ f with replicates := fr }, [s]) := by simpa using he
      rw [this]
    · rw [hlen, List.drop_length] at he
      cases he
  · intro w hre
    induction hre with
    | empty name =>
        intro e he
        cases he
    | @step w0 w' f s hre0 hP hok ih =>
        obtain ⟨-, -, l', fr, hfa, hle, -, hinputs⟩ := add_input_ok_spec hok
        intro e he
        have hmerged : ∀ e' ∈ l', e'.2.length = e'.1.replicates := by
          intro e' he'
          obtain ⟨e0, he0, hrel⟩ := forall2_mem_right hfa e' he'
          obtain ⟨k, hrep, hslen⟩ := entryRel_growth hrel
          rw [hrep, hslen, ih e0 he0]
        rw [hinputs] at he
        split_ifs at he with hfr
        · rcases List.mem_append.mp he with he | he
          · exact hmerged e he
          · have heq : e = ({ f with replicates := fr }, [s]) := by simpa using he
            rw [heq]
            show 1 = fr
            omega
        · exact hmerged e he

/-- C1, witness for the amended invariant at a concrete reachable workflow. -/
theorem c1_witness :
    ∀ e ∈ wfTrack.inputs, e.2.length = e.1.replicates :=
  c1_amended.2 wfTrack
    (ReachableP.step baseFile (some "S1") (ReachableP.empty "w") rfl (by decide))

/-- C2, counterexample: `InputFile` accepts a 22 mL recipe with 2 replicates,
and adding it to an empty workflow produces an entry whose replicate count
exceeds its own `max_replicates` (1). -/
theorem c2_counterexample :
    ((Workflow.mk "w" []).add_input fileJumbo none).map
      (fun w => w.inputs.map
        (fun e => decide ((e.1.replicates : ℤ) ≤ e.1.max_replicates_val)))
      = .ok [false] := by
  decide

/-- C2 (amended): after any sequence of successful `add_input` calls the total
replicate count never exceeds `MAX_CRUCIBLES`; and, provided every recipe
passed to `add_input` had positive ethanol volume and a replicate count within
its own `max_replicates`, every entry's replicate count stays within that
entry's `max_replicates`. -/
theorem c2_amended :
    (∀ w : Workflow, ReachableP (fun _ _ => True) w →
      w.required_crucibles ≤ MAX_CRUCIBLES) ∧
    (∀ w : Workflow,
      ReachableP (fun f _ => 0 < f.ethanol_volume ∧
        (f.replicates : ℤ) ≤ f.max_replicates_val) w →
      ∀ e ∈ w.inputs, 0 < e.1.ethanol_volume ∧
        (e.1.replicates : ℤ) ≤ e.1.max_replicates_val) := by
  constructor
  · intro w hre
    exact reachable_crucibles_le hre
  · intro w hre
    induction hre with
    | empty name =>
        intro e he
        cases he
    | @step w0 w' f s hre0 hP hok ih =>
        obtain ⟨-, -, l', fr, hfa, hle, -, hinputs⟩ := add_input_ok_spec hok
        intro e he
        have hmerged : ∀ e' ∈ l', 0 < e'.1.ethanol_volume ∧
            (e'.1.replicates : ℤ) ≤ e'.1.max_replicates_val := by
          intro e' he'
          obtain ⟨e0, he0, hrel⟩ := forall2_mem_right hfa e' he'
          obtain ⟨heth, hmax⟩ := entryRel_fields hrel
          obtain ⟨hpos0, hbound0⟩ := ih e0 he0
          refine ⟨by rw [heth]; exact hpos0, ?_⟩
          obtain ⟨k, hg, -, hb⟩ := hrel
          rcases hb with hk0 | ⟨-, -, hble⟩
          · subst hk0
            rw [hmax, hg]
            show ((e0.1.replicates + 0 : ℕ) : ℤ) ≤ e0.1.max_replicates_val
            push_cast
            omega
          · rw [hmax]
            exact hble
        rw [hinputs] at he
        split_ifs at he with hfr
        · rcases List.mem_append.mp he with he | he
          · exact hmerged e he
          · have heq : e = ({ f with replicates := fr }, [s]) := by simpa using he
            rw [heq]
            obtain ⟨hpos, hbound⟩ := hP
            refine ⟨hpos, ?_⟩
            show ((fr : ℕ) : ℤ) ≤ ({ f with replicates := fr } : InputFile).max_replicates_val
            have hmax : ({ f with replicates := fr } : InputFile).max_replicates_val
                = f.max_replicates_val := rfl
            rw [hmax]
            have : (fr : ℤ) ≤ (f.replicates : ℤ) := by exact_mod_cast hle
            omega
        · exact hmerged e he

/-- C2, witness for the amended invariant at a concrete reachable workflow. -/
theorem c2_witness :
    wf15.required_crucibles ≤ MAX_CRUCIBLES ∧
    (∀ e ∈ wf15.inputs, 0 < e.1.ethanol_volume ∧
      (e.1.replicates : ℤ) ≤ e.1.max_replicates_val) :=
  ⟨c2_amended.1 wf15
      (ReachableP.step file15 none (ReachableP.empty "wf") trivial (by decide)),
   c2_amended.2 wf15
      (ReachableP.step file15 none (ReachableP.empty "wf")
        (by constructor <;> decide) (by decide))⟩

/-- C3 (confirmed): `add_input` fails with `WorkflowFullError` exactly when the
current total replicate count plus the incoming recipe's full replicate count
exceeds `MAX_CRUCIBLES`; in particular a workflow holding 15 crucibles rejects
an incoming 2-replicate recipe outright. -/
theorem c3_full_check :
    (∀ (w : Workflow) (f : InputFile) (s : Option String),
      w.add_input f s = .error .workflowFull ↔
      MAX_CRUCIBLES < w.required_crucibles + f.replicates) ∧
    wf15.required_crucibles = 15 ∧ fileR2.replicates = 2 ∧
    wf15.add_input fileR2 none = .error .workflowFull := by
  refine ⟨add_input_full_iff, by decide, by decide, by decide⟩

/-- C4, counterexample: on a full untracked workflow, supplying a sample
triggers `WorkflowFullError` rather than `SampleTrackingError`, even though
condition (b) of the claim holds, so the unqualified "exactly when" fails. -/
theorem c4_counterexample :
    1 ≤ wf16.required_crucibles ∧
    wf16.samples_are_being_tracked = false ∧
    wf16.add_input baseFile (some "S1") = .error .workflowFull ∧
    wf16.add_input baseFile (some "S1") ≠ .error .sampleTracking := by
  refine ⟨by decide, by decide, by decide, by decide⟩

/-- C4 (amended): provided the capacity check passes, `add_input` on a
workflow holding at least one crucible raises `SampleTrackingError` exactly
when (a) a sample is supplied for a recipe with more than one replicate, or
(b) a sample is supplied on an untracked workflow, or (c) no sample is
supplied on a tracked workflow; a first tracked addition on an empty workflow
succeeds and a subsequent sample-less addition fails with
`SampleTrackingError`. -/
theorem c4_amended :
    (∀ (w : Workflow) (f : InputFile) (s : Option String),
      w.required_crucibles + f.replicates ≤ MAX_CRUCIBLES →
      (w.add_input f s = .error .sampleTracking ↔
        (1 ≤ w.required_crucibles ∧
          ((s.isSome = true ∧ 1 < f.replicates) ∨
           (s.isSome = true ∧ w.samples_are_being_tracked = false) ∨
           (s = none ∧ w.samples_are_being_tracked = true))))) ∧
    ((Workflow.mk "w" []).add_input baseFile (some "S1") = .ok wfTrack) ∧
    (wfTrack.add_input { baseFile with powder_dispenses := [("B", 2)], time_added := 3 }
      none = .error .sampleTracking) := by
  refine ⟨?_, by decide, by decide⟩
  intro w f s hcap
  rw [add_input_sampleTracking_iff w f s hcap, sampletracking_broken_iff]

/-- C4, witness: the amended equivalence instantiated on a tracked one-entry
workflow with a sample-less addition. -/
theorem c4_witness :
    wfTrack.add_input baseFile none = .error .sampleTracking ↔
      (1 ≤ wfTrack.required_crucibles ∧
        (((none : Option String).isSome = true ∧ 1 < baseFile.replicates) ∨
         ((none : Option String).isSome = true ∧
            wfTrack.samples_are_being_tracked = false) ∨
         ((none : Option String) = none ∧
            wfTrack.samples_are_being_tracked = true))) :=
  c4_amended.1 wfTrack baseFile none (by decide)

/-- C5, counterexample: a first `add_input` with a sample and 2 replicates on
an empty workflow succeeds and puts the workflow in tracked mode, so a tracked
recipe need not have had exactly 1 replicate at the moment of its addition. -/
theorem c5_counterexample :
    ((Workflow.mk "w" []).add_input fileR2 (some "S1")).map
      (fun w => w.samples_are_being_tracked) = .ok true ∧
    1 < fileR2.replicates := by
  refine ⟨by decide, by decide⟩

/-- C5 (amended): a reachable workflow is in exactly one of two permanent
modes: in tracked mode every entry's sample list holds a non-null sample, in
untracked mode every slot is null; the mode never changes across a successful
`add_input` on a non-empty workflow; and every sample-supplying addition to a
non-empty workflow carries at most one replicate (the first addition is
exempt, as the counterexample shows). -/
theorem c5_amended :
    (∀ w : Workflow, ReachableP (fun _ _ => True) w →
      w.samples_are_being_tracked = true →
      ∀ e ∈ w.inputs, ∃ x ∈ e.2, x.isSome = true) ∧
    (∀ w : Workflow, w.samples_are_being_tracked = false →
      ∀ e ∈ w.inputs, ∀ x ∈ e.2, x = none) ∧
    (∀ (w : Workflow) (f : InputFile) (s : Option String) (w' : Workflow),
      1 ≤ w.required_crucibles → w.add_input f s = .ok w' →
      w'.samples_are_being_tracked = w.samples_are_being_tracked) ∧
    (∀ (w : Workflow) (f : InputFile) (x : String) (w' : Workflow),
      1 ≤ w.required_crucibles → w.add_input f (some x) = .ok w' →
      f.replicates ≤ 1) := by
  refine ⟨?_, ?_, ?_, ?_⟩
  · intro w hre
    exact reachable_tracked_all hre
  · intro w huntrk
    exact (untracked_iff w).mp huntrk
  · intro w f s w' hnz hok
    exact add_input_tracked_eq hok hnz
  · intro w f x w' hnz hok
    exact ((add_input_ok_tracking hok hnz).1 rfl).1

/-- C5, witness: the amended statements instantiated on concrete workflows. -/
theorem c5_witness :
    (∀ e ∈ wfTrack.inputs, ∃ x ∈ e.2, x.isSome = true) ∧
    wf15'.samples_are_being_tracked = wf15.samples_are_being_tracked ∧
    baseFile.replicates ≤ 1 :=
  ⟨c5_amended.1 wfTrack
      (ReachableP.step baseFile (some "S1") (ReachableP.empty "w") trivial (by decide))
      (by decide),
   c5_amended.2.2.1 wf15 baseFile none wf15' (by decide) (by decide),
   c5_amended.2.2.2 wfTrack baseFile "S2"
      { name := "w", inputs := [({ baseFile with replicates := 2 }, [some "S1", some "S2"])] }
      (by decide)
      (by decide)⟩

/-- C10 (confirmed): a recipe with `ethanol_volume = 0` passes construction,
but `max_replicates` and (for `allow_replicates = true`)
`can_accept_another_replicate` evaluate `floor(22000 / 0)` and raise the
division-by-zero error, which surfaces in the merge scan of `add_input` when a
matching replicate-enabled entry exists. -/
theorem c10_zero_division :
    (InputFile.init [("A", 1)] (some 100) 0 (some 5) 2000 540 (some 5) 1 true 0 =
      .ok fileZeroEthanol) ∧
    (∀ f : InputFile, f.ethanol_volume = 0 →
      f.max_replicates = .error .zeroDivision) ∧
    (∀ f : InputFile, f.ethanol_volume = 0 → f.allow_replicates = true →
      f.can_accept_another_replicate = .error .zeroDivision) ∧
    wfZero.add_input fileZeroEthanol none = .error .zeroDivision := by
  refine ⟨by decide, ?_, ?_, by decide⟩
  · intro f h0
    unfold InputFile.max_replicates
    rw [if_pos h0]
  · intro f h0 hallow
    unfold InputFile.can_accept_another_replicate
    rw [if_neg (by rw [hallow]; exact fun hc => by cases hc)]
    unfold InputFile.max_replicates
    rw [if_pos h0]
    rfl

/-- C10, witness: the division-by-zero results instantiated on the concrete
zero-ethanol recipe. -/
theorem c10_witness :
    fileZeroEthanol.max_replicates = .error .zeroDivision ∧
    fileZeroEthanol.can_accept_another_replicate = .error .zeroDivision :=
  ⟨c10_zero_division.2.1 fileZeroEthanol (by decide),
   c10_zero_division.2.2.1 fileZeroEthanol (by decide) (by decide)⟩

/-! ### Serialization equality lemmas -/

theorem normalizeJson_to_json (f : InputFile) :
    normalizeJson f.to_json =
    { HeatingDuration := pyInt f.heating_duration
      EthanolDispenseVolume :=
        ((pyInt f.ethanol_volume * (f.replicates : ℤ) : ℤ) : ℚ) / (f.replicates : ℚ)
      MinimumTransferMass := pyRound5 f.min_transfer_mass
      MixerDuration := pyRoundInt f.mixer_duration
      MixerSpeed := pyRoundInt f.mixer_speed
      PowderDispenses := f.powder_dispenses.map
        (fun pm => (pm.1, pyRound5 (pm.2 * (f.replicates : ℚ)) / (f.replicates : ℚ)))
      TargetTransferVolume := pyInt f.transfer_volume } := by
  unfold normalizeJson InputFile.to_json
  simp [List.map_map]

theorem pyRound5_of_5dp {m : ℚ} (k : ℤ) (hm : m = (k : ℚ) / 100000) {r : ℕ}
    (hr : 1 ≤ r) : pyRound5 (m * (r : ℚ)) / (r : ℚ) = m := by
  have hrne : (r : ℚ) ≠ 0 := Nat.cast_ne_zero.mpr (by omega)
  have h1 : pyRound5 (m * (r : ℚ)) = m * (r : ℚ) := by
    refine @pyRound5_of_mul_eq_int _ (k * r) ?_
    rw [hm]
    push_cast
    ring
  rw [h1]
  exact mul_div_cancel_right₀ m hrne

/-- C6, counterexample: two recipes built from the same per-replicate
parameters (powder mass `0.000015` g) with replicates 1 vs 2 compare unequal,
because `round(mass * replicates, 5)` does not commute with dividing by the
replicate count. -/
theorem c6_counterexample :
    InputFile.eq fileTinyMass1 fileTinyMass2 = false ∧
    fileTinyMass1.replicates = 1 ∧ fileTinyMass2.replicates = 2 ∧
    fileTinyMass1.powder_dispenses = fileTinyMass2.powder_dispenses ∧
    fileTinyMass1.ethanol_volume = fileTinyMass2.ethanol_volume := by
  refine ⟨by decide, by decide, by decide, by decide, by decide⟩

/-- C6 (amended): two InputFiles built with identical per-replicate parameters
but different replicates and `time_added` compare equal under
`InputFile.__eq__`, provided each per-replicate powder mass is an integer
multiple of 1e-5 g (so the 5-decimal rounding of the serialized total mass is
exact); equality then ignores replicate count and `time_added`. -/
theorem c6_amended : ∀ (pd : List (String × ℚ)) (hd : Option ℚ) (ev : ℚ)
    (tv : Option ℚ) (ms md : ℚ) (mt : Option ℚ) (r1 r2 : ℕ) (t1 t2 : ℕ)
    (a b : InputFile),
    InputFile.init pd hd ev tv ms md mt r1 true t1 = .ok a →
    InputFile.init pd hd ev tv ms md mt r2 true t2 = .ok b →
    1 ≤ r1 → 1 ≤ r2 →
    (∀ pm ∈ pd, ∃ k : ℤ, pm.2 = (k : ℚ) / 100000) →
    InputFile.eq a b = true := by
  intro pd hd ev tv ms md mt r1 r2 t1 t2 a b ha hb hr1 hr2 hmass
  have hsa := init_ok_shape ha
  have hsb := init_ok_shape hb
  subst hsa
  subst hsb
  unfold InputFile.eq
  rw [decide_eq_true_iff]
  rw [normalizeJson_to_json, normalizeJson_to_json]
  have hmap : ∀ r : ℕ, 1 ≤ r →
      pd.map (fun pm => (pm.1, pyRound5 (pm.2 * (r : ℚ)) / (r : ℚ)))
      = pd.map (fun pm => pm) := by
    intro r hr
    refine List.map_congr_left ?_
    intro pm hpm
    obtain ⟨k, hk⟩ := hmass pm hpm
    rw [pyRound5_of_5dp k hk hr]
  have hev : ∀ r : ℕ, 1 ≤ r →
      ((pyInt ev * (r : ℤ) : ℤ) : ℚ) / (r : ℚ) = (pyInt ev : ℚ) := by
    intro r hr
    have hrne : (r : ℚ) ≠ 0 := Nat.cast_ne_zero.mpr (by omega)
    push_cast
    exact mul_div_cancel_right₀ _ hrne
  congr 1
  · show ((pyInt ev * (r1 : ℤ) : ℤ) : ℚ) / (r1 : ℚ)
        = ((pyInt ev * (r2 : ℤ) : ℤ) : ℚ) / (r2 : ℚ)
    rw [hev r1 hr1, hev r2 hr2]
  · show pd.map (fun pm => (pm.1, pyRound5 (pm.2 * (r1 : ℚ)) / (r1 : ℚ)))
        = pd.map (fun pm => (pm.1, pyRound5 (pm.2 * (r2 : ℚ)) / (r2 : ℚ)))
    rw [hmap r1 hr1, hmap r2 hr2]

/-- C6, witness: two concrete recipes differing only in replicate count and
`time_added` compare equal. -/
theorem c6_witness :
    InputFile.eq baseFile { baseFile with replicates := 2, time_added := 1 } = true :=
  c6_amended [("A", 1)] (some 100) 10000 (some 10000) 2000 540 (some 5) 1 2 0 1
    baseFile { baseFile with replicates := 2, time_added := 1 }
    (by decide) (by decide) (by decide) (by decide)
    (by
      intro pm hpm
      have hpm' : pm = ("A", 1) := by simpa using hpm
      rw [hpm']
      exact ⟨100000, by norm_num⟩)

/-- C9, counterexample: constructing with explicit `heating_duration_s = 0`
and `transfer_volume_ul = 0` yields the derived defaults (5400 s and the
ethanol volume), not zero. -/
theorem c9_counterexample :
    (InputFile.init [("A", 1)] (some 0) 10000 (some 0) 2000 540 (some 5) 1 true 0).map
      (fun f => (f.heating_duration, f.transfer_volume)) = .ok (5400, 10000) ∧
    (5400 : ℚ) ≠ 0 ∧ (10000 : ℚ) ≠ 0 := by
  refine ⟨by decide, by decide, by decide⟩

/-- C9 (amended): because the constructor defaults use Python truthiness, an
explicit `heating_duration_s = 0` is treated as unset and produces the derived
default `ethanol_volume * 90*60/10000`, and an explicit
`transfer_volume_ul = 0` produces `ethanol_volume`. -/
theorem c9_amended : ∀ (pd : List (String × ℚ)) (ev ms md : ℚ) (mt : Option ℚ)
    (r : ℕ) (al : Bool) (t : ℕ) (f : InputFile),
    InputFile.init pd (some 0) ev (some 0) ms md mt r al t = .ok f →
    f.heating_duration = ev * (90 * 60 / 10000) ∧ f.transfer_volume = ev := by
  intro pd ev ms md mt r al t f h
  have hs := init_ok_shape h
  subst hs
  constructor
  · show pyOrQ (some 0) (ev * (90 * 60 / 10000)) = ev * (90 * 60 / 10000)
    simp [pyOrQ]
  · show pyOrQ (some 0) ev = ev
    simp [pyOrQ]

/-- C9, witness: the truthiness defaulting observed on a concrete
construction. -/
theorem c9_witness :
    ({ baseFile with heating_duration := 5400 } : InputFile).heating_duration
      = 10000 * (90 * 60 / 10000) ∧
    ({ baseFile with heating_duration := 5400 } : InputFile).transfer_volume = 10000 :=
  c9_amended [("A", 1)] 10000 2000 540 (some 5) 1 true 0
    { baseFile with heating_duration := 5400 } (by decide)

/-! ### Serializer ordering lemmas -/

theorem insertByHeating_perm (e : WEntry) (l : List WEntry) :
    (insertByHeating e l).Perm (e :: l) := by
  induction l with
  | nil =>
      exact List.Perm.refl _
  | cons x xs ih =>
      unfold insertByHeating
      split_ifs
      · exact List.Perm.refl _
      · exact List.Perm.trans (List.Perm.cons x ih) (List.Perm.swap e x xs)

theorem sortByHeatingDesc_perm (l : List WEntry) :
    (sortByHeatingDesc l).Perm l := by
  induction l with
  | nil => exact List.Perm.refl _
  | cons x xs ih =>
      unfold sortByHeatingDesc
      exact List.Perm.trans (insertByHeating_perm x _) (List.Perm.cons x ih)

theorem insertByHeating_sorted {e : WEntry} {l : List WEntry}
    (hl : l.Pairwise (fun a b => b.1.heating_duration ≤ a.1.heating_duration)) :
    (insertByHeating e l).Pairwise
      (fun a b => b.1.heating_duration ≤ a.1.heating_duration) := by
  induction l with
  | nil =>
      simp [insertByHeating]
  | cons x xs ih =>
      rw [List.pairwise_cons] at hl
      obtain ⟨hx, hxs⟩ := hl
      unfold insertByHeating
      split_ifs with hcond
      · rw [List.pairwise_cons]
        refine ⟨?_, List.pairwise_cons.mpr ⟨hx, hxs⟩⟩
        intro y hy
        rcases List.mem_cons.mp hy with hy | hy
        · rw [hy]
          exact hcond
        · exact le_trans (hx y hy) hcond
      · rw [List.pairwise_cons]
        refine ⟨?_, ih hxs⟩
        intro y hy
        have hy' : y ∈ e :: xs := (insertByHeating_perm e xs).mem_iff.mp hy
        rcases List.mem_cons.mp hy' with hy' | hy'
        · rw [hy']
          exact le_of_not_le (by simpa using hcond)
        · exact hx y hy'

theorem sortByHeatingDesc_sorted (l : List WEntry) :
    (sortByHeatingDesc l).Pairwise
      (fun a b => b.1.heating_duration ≤ a.1.heating_duration) := by
  induction l with
  | nil => simp [sortByHeatingDesc]
  | cons x xs ih =>
      unfold sortByHeatingDesc
      exact insertByHeating_sorted ih

theorem zip_map_snd_take {α : Type} (l : List WEntry) (ps : List α)
    (h : l.length ≤ ps.length) :
    ((l.zip ps).map (fun ep => ep.2)) = ps.take l.length := by
  induction l generalizing ps with
  | nil => simp
  | cons x xs ih =>
      cases ps with
      | nil => simp at h
      | cons p ps' =>
          simp only [List.zip_cons_cons, List.map_cons, List.length_cons,
            List.take_succ_cons]
          rw [ih ps' (by simpa using h)]

theorem workflow_to_json_ok (w : Workflow) (qi : ℤ) (avail : List ℤ)
    (hlen : w.required_jars ≤ avail.length) :
    w.to_json qi avail false =
      .ok ({ WorkflowName := w.name
             Quadrant := qi
             InputFile := ((sortByHeatingDesc w.inputs).zip avail).map
               (fun ep => ep.1.1.to_labman_json ep.2) }, none) := by
  unfold Workflow.to_json
  rw [if_neg (by simp)]
  rw [if_neg (not_lt.mpr hlen)]
  simp

/-- C8 (confirmed): when enough positions are available, `Workflow.to_json`
succeeds and emits the entries sorted by heating duration in descending order
(a permutation of the stored entries), zipping the sorted entries with
`available_positions` in order; concretely, entries with heating durations
[100, 500, 300] serialize as [500, 300, 100] at the first three available
positions. -/
theorem c8_serialization :
    (∀ (w : Workflow) (qi : ℤ) (avail : List ℤ),
      w.required_jars ≤ avail.length →
      w.to_json qi avail false =
        .ok ({ WorkflowName := w.name
               Quadrant := qi
               InputFile := ((sortByHeatingDesc w.inputs).zip avail).map
                 (fun ep => ep.1.1.to_labman_json ep.2) }, none) ∧
      (sortByHeatingDesc w.inputs).Pairwise
        (fun a b => b.1.heating_duration ≤ a.1.heating_duration) ∧
      (sortByHeatingDesc w.inputs).Perm w.inputs ∧
      ((sortByHeatingDesc w.inputs).zip avail).map
        (fun ep => (ep.1.1.to_labman_json ep.2).Position)
        = avail.take w.required_jars) ∧
    (wfHeat.to_json 1 [3, 5, 7, 9] false).map
      (fun r => r.1.InputFile.map (fun p => (p.HeatingDuration, p.Position)))
      = .ok [(500, 3), (300, 5), (100, 7)] := by
  constructor
  · intro w qi avail hlen
    refine ⟨workflow_to_json_ok w qi avail hlen, sortByHeatingDesc_sorted _,
      sortByHeatingDesc_perm _, ?_⟩
    have hplen : (sortByHeatingDesc w.inputs).length = w.required_jars :=
      (sortByHeatingDesc_perm w.inputs).length_eq
    have : ((sortByHeatingDesc w.inputs).zip avail).map
        (fun ep => (ep.1.1.to_labman_json ep.2).Position)
        = ((sortByHeatingDesc w.inputs).zip avail).map (fun ep => ep.2) := rfl
    rw [this, zip_map_snd_take _ _ (by rw [hplen]; exact hlen), hplen]
  · decide

/-- C8, witness: the general serialization statement instantiated on the
concrete three-entry workflow. -/
theorem c8_witness :
    (sortByHeatingDesc wfHeat.inputs).Pairwise
      (fun a b => b.1.heating_duration ≤ a.1.heating_duration) ∧
    ((sortByHeatingDesc wfHeat.inputs).zip [3, 5, 7, 9]).map
      (fun ep => (ep.1.1.to_labman_json ep.2).Position)
      = [3, 5, 7, 9].take wfHeat.required_jars :=
  ⟨(c8_serialization.1 wfHeat 1 [3, 5, 7, 9] (by decide)).2.1,
   (c8_serialization.1 wfHeat 1 [3, 5, 7, 9] (by decide)).2.2.2⟩

/-! ### Round-trip lemmas -/

theorem pyInt_zero : pyInt 0 = 0 := by
  have := pyInt_intCast 0
  simpa using this

theorem pyInt_one_le {x : ℚ} (h : 1 ≤ x) : 1 ≤ pyInt x := by
  unfold pyInt
  rw [if_neg (by push_neg; linarith), rat_floor_eq_floor]
  exact Int.le_floor.mpr (by exact_mod_cast h)

theorem pyOrQ_none (d : ℚ) : pyOrQ none d = d := rfl

theorem pyOrQ_some_zero (d : ℚ) : pyOrQ (some 0) d = d := by
  simp [pyOrQ]

theorem pyOrQ_some_ne {t : ℚ} (h : t ≠ 0) (d : ℚ) : pyOrQ (some t) d = t := by
  simp [pyOrQ, h]

theorem pyOrQ_eq_zero {v : Option ℚ} {d : ℚ} (h : pyOrQ v d = 0) : d = 0 := by
  cases v with
  | none => exact h
  | some t =>
      by_cases ht : t = 0
      · rw [ht, pyOrQ_some_zero] at h
        exact h
      · rw [pyOrQ_some_ne ht] at h
        exact absurd h ht

theorem init_ok_intro (pd : List (String × ℚ)) (hd : Option ℚ) (ev : ℚ)
    (tv : Option ℚ) (ms md : ℚ) (mt : Option ℚ) (r : ℕ) (al : Bool) (t : ℕ)
    (h1 : pd ≠ [])
    (h2 : ∀ pm ∈ pd, 0 < pm.2)
    (h3 : 0 ≤ ev) (h3b : ev ≤ MAX_JAR_VOLUME_UL)
    (h4 : 0 ≤ pyOrQ hd (ev * (90 * 60 / 10000)))
    (h4b : pyOrQ hd (ev * (90 * 60 / 10000)) ≤ 240 * 60)
    (h5 : 0 ≤ md) (h5b : md ≤ 15 * 60)
    (h6 : al = true ∨ r ≤ 1) :
    InputFile.init pd hd ev tv ms md mt r al t =
      .ok { powder_dispenses := pd
            ethanol_volume := ev
            transfer_volume := pyOrQ tv ev
            heating_duration := pyOrQ hd (ev * (90 * 60 / 10000))
            mixer_speed := ms
            mixer_duration := md
            min_transfer_mass := defaultMinTransferMass mt (pyOrQ tv ev) pd
            allow_replicates := al
            replicates := r
            time_added := t } := by
  unfold InputFile.init
  rw [if_neg (by simpa using h1)]
  rw [if_neg (by
    simp only [List.any_eq_true, not_exists, not_and]
    intro pm hpm
    simp only [decide_eq_true_eq, not_le]
    exact h2 pm hpm)]
  rw [if_neg (by push_neg; exact ⟨h3, h3b⟩)]
  rw [if_neg (by push_neg; exact ⟨h4, h4b⟩)]
  rw [if_neg (by push_neg; exact ⟨h5, h5b⟩)]
  rw [if_neg (by
    rcases h6 with h6 | h6
    · intro hc
      rw [h6] at hc
      cases hc.1
    · intro hc
      omega)]

theorem pyRoundInt_idem (x : ℚ) : pyRoundInt ((pyRoundInt x : ℤ) : ℚ) = pyRoundInt x := by
  unfold pyRoundInt
  exact roundHalfEven_intCast _

theorem from_json_eval (f : InputFile) (hrep : f.replicates = 1) :
    InputFile.from_json f.to_json =
    InputFile.init (f.powder_dispenses.map (fun pm => (pm.1, pyRound5 pm.2)))
      (some ((pyInt f.heating_duration : ℤ) : ℚ))
      ((pyInt f.ethanol_volume : ℤ) : ℚ)
      (some ((pyInt f.transfer_volume : ℤ) : ℚ))
      ((pyRoundInt f.mixer_speed : ℤ) : ℚ)
      ((pyRoundInt f.mixer_duration : ℤ) : ℚ)
      (some (pyRound5 f.min_transfer_mass))
      1 true f.time_added := by
  unfold InputFile.from_json InputFile.to_json
  simp only [hrep]
  congr 1
  · refine List.map_congr_left ?_
    intro pm hpm
    simp
  · push_cast
    ring

/-- C7, counterexample: for a 2-replicate recipe the round trip
`from_json(to_json(r))` yields a recipe that is not equal to `r` under
`InputFile.__eq__`: `from_json` divides the serialized ethanol volume by the
replicate count but passes the serialized total powder masses through
unchanged. -/
theorem c7_counterexample :
    fileRoundTrip.replicates = 2 ∧
    (InputFile.from_json fileRoundTrip.to_json).map
      (fun g => InputFile.eq g fileRoundTrip) = .ok false := by
  refine ⟨by decide, by decide⟩

/-- C7 (amended): the round trip `from_json(to_json(r))` reconstructs a recipe
equal to `r` under `InputFile.__eq__` for recipes with `replicates = 1`,
integer ethanol and transfer volumes, heating duration either 0 or at least
1 second, and powder masses whose 5-decimal rounding stays positive; for
`replicates ≥ 2` the round trip fails (`c7_counterexample`). -/
theorem c7_amended : ∀ (pd : List (String × ℚ)) (hd : Option ℚ) (ev : ℚ)
    (tv : Option ℚ) (ms md : ℚ) (mt : Option ℚ) (t : ℕ) (f : InputFile),
    InputFile.init pd hd ev tv ms md mt 1 true t = .ok f →
    (∃ n : ℤ, ev = (n : ℚ)) →
    (tv = none ∨ ∃ n : ℤ, tv = some ((n : ℤ) : ℚ)) →
    (∀ pm ∈ pd, 0 < pyRound5 pm.2) →
    (f.heating_duration = 0 ∨ 1 ≤ f.heating_duration) →
    ∃ g, InputFile.from_json f.to_json = .ok g ∧ InputFile.eq g f = true := by
  intro pd hd ev tv ms md mt t f hinit hev htv hmass hh
  obtain ⟨hpd, hm, hev0, hev22, hH0, hH14, hmd0, hmd900, -⟩ := init_ok_facts hinit
  have hshape := init_ok_shape hinit
  subst hshape
  have hH0' : (0 : ℚ) ≤ pyOrQ hd (ev * (90 * 60 / 10000)) := hH0
  have hH14' : pyOrQ hd (ev * (90 * 60 / 10000)) ≤ 14400 := hH14
  have hh' : pyOrQ hd (ev * (90 * 60 / 10000)) = 0 ∨
      (1 : ℚ) ≤ pyOrQ hd (ev * (90 * 60 / 10000)) := hh
  rw [from_json_eval _ rfl]
  have hHcase : (pyOrQ hd (ev * (90 * 60 / 10000)) = 0 ∧ ev = 0) ∨
      1 ≤ pyInt (pyOrQ hd (ev * (90 * 60 / 10000))) := by
    rcases hh' with h0 | h1
    · refine Or.inl ⟨h0, ?_⟩
      have hevc := pyOrQ_eq_zero h0
      rcases mul_eq_zero.mp hevc with h | h
      · exact h
      · norm_num at h
    · exact Or.inr (pyInt_one_le h1)
  have hheat_ok : (0 : ℚ) ≤ pyOrQ (some ((pyInt (pyOrQ hd (ev * (90 * 60 / 10000))) : ℤ) : ℚ))
        (((pyInt ev : ℤ) : ℚ) * (90 * 60 / 10000)) ∧
      pyOrQ (some ((pyInt (pyOrQ hd (ev * (90 * 60 / 10000))) : ℤ) : ℚ))
        (((pyInt ev : ℤ) : ℚ) * (90 * 60 / 10000)) ≤ 240 * 60 := by
    rcases hHcase with ⟨h0, hev00⟩ | h1
    · rw [h0, hev00, pyInt_zero]
      norm_num [pyOrQ_some_zero, pyInt_zero]
    · have hne : ((pyInt (pyOrQ hd (ev * (90 * 60 / 10000))) : ℤ) : ℚ) ≠ 0 := by
        have : (1 : ℚ) ≤ ((pyInt (pyOrQ hd (ev * (90 * 60 / 10000))) : ℤ) : ℚ) := by
          exact_mod_cast h1
        linarith
      rw [pyOrQ_some_ne hne]
      constructor
      · have := pyInt_nonneg hH0'
        exact_mod_cast this
      · have := pyInt_le hH0'
        have h2 : ((pyInt (pyOrQ hd (ev * (90 * 60 / 10000))) : ℤ) : ℚ) ≤ 14400 :=
          le_trans this hH14'
        linarith
  have hG := init_ok_intro
    (pd.map (fun pm => (pm.1, pyRound5 pm.2)))
    (some ((pyInt (pyOrQ hd (ev * (90 * 60 / 10000))) : ℤ) : ℚ))
    ((pyInt ev : ℤ) : ℚ)
    (some ((pyInt (pyOrQ tv ev) : ℤ) : ℚ))
    ((pyRoundInt ms : ℤ) : ℚ)
    ((pyRoundInt md : ℤ) : ℚ)
    (some (pyRound5 (defaultMinTransferMass mt (pyOrQ tv ev) pd)))
    1 true t
    (by
      intro hc
      exact hpd (by simpa using hc))
    (by
      intro pm hpm
      obtain ⟨q, hq, hq2⟩ := List.mem_map.mp hpm
      rw [← hq2]
      exact hmass q hq)
    (by
      have := pyInt_nonneg hev0
      exact_mod_cast this)
    (by
      have := pyInt_le hev0
      exact le_trans this hev22)
    hheat_ok.1
    hheat_ok.2
    (by
      have : (0 : ℤ) ≤ pyRoundInt md := roundHalfEven_nonneg hmd0
      exact_mod_cast this)
    (by
      have : pyRoundInt md ≤ (900 : ℤ) := roundHalfEven_le (by exact_mod_cast hmd900)
      have h2 : ((pyRoundInt md : ℤ) : ℚ) ≤ ((900 : ℤ) : ℚ) := by exact_mod_cast this
      norm_num at h2
      norm_num
      exact h2)
    (Or.inl rfl)
  refine ⟨_, hG, ?_⟩
  unfold InputFile.eq
  rw [decide_eq_true_iff]
  rw [normalizeJson_to_json, normalizeJson_to_json]
  congr 1
  · -- HeatingDuration
    show pyInt (pyOrQ (some ((pyInt (pyOrQ hd (ev * (90 * 60 / 10000))) : ℤ) : ℚ))
          (((pyInt ev : ℤ) : ℚ) * (90 * 60 / 10000)))
        = pyInt (pyOrQ hd (ev * (90 * 60 / 10000)))
    rcases hHcase with ⟨h0, hev00⟩ | h1
    · rw [h0, hev00, pyInt_zero]
      norm_num [pyOrQ_some_zero, pyInt_zero]
    · have hne : ((pyInt (pyOrQ hd (ev * (90 * 60 / 10000))) : ℤ) : ℚ) ≠ 0 := by
        have : (1 : ℚ) ≤ ((pyInt (pyOrQ hd (ev * (90 * 60 / 10000))) : ℤ) : ℚ) := by
          exact_mod_cast h1
        linarith
      rw [pyOrQ_some_ne hne, pyInt_idem]
  · -- EthanolDispenseVolume
    show ((pyInt ((pyInt ev : ℤ) : ℚ) * ((1 : ℕ) : ℤ) : ℤ) : ℚ) / ((1 : ℕ) : ℚ)
        = ((pyInt ev * ((1 : ℕ) : ℤ) : ℤ) : ℚ) / ((1 : ℕ) : ℚ)
    rw [pyInt_idem]
  · -- MinimumTransferMass
    show pyRound5 (pyRound5 (defaultMinTransferMass mt (pyOrQ tv ev) pd))
        = pyRound5 (defaultMinTransferMass mt (pyOrQ tv ev) pd)
    exact pyRound5_idem _
  · -- MixerDuration
    show pyRoundInt ((pyRoundInt md : ℤ) : ℚ) = pyRoundInt md
    exact pyRoundInt_idem md
  · -- MixerSpeed
    show pyRoundInt ((pyRoundInt ms : ℤ) : ℚ) = pyRoundInt ms
    exact pyRoundInt_idem ms
  · -- PowderDispenses
    show (pd.map (fun pm => (pm.1, pyRound5 pm.2))).map
          (fun pm => (pm.1, pyRound5 (pm.2 * ((1 : ℕ) : ℚ)) / ((1 : ℕ) : ℚ)))
        = pd.map (fun pm => (pm.1, pyRound5 (pm.2 * ((1 : ℕ) : ℚ)) / ((1 : ℕ) : ℚ)))
    rw [List.map_map]
    refine List.map_congr_left ?_
    intro pm hpm
    simp [pyRound5_idem]
  · -- TargetTransferVolume
    show pyInt (pyOrQ (some ((pyInt (pyOrQ tv ev) : ℤ) : ℚ)) ((pyInt ev : ℤ) : ℚ))
        = pyInt (pyOrQ tv ev)
    by_cases hT : pyInt (pyOrQ tv ev) = 0
    · rw [hT]
      have hpyev : pyInt ev = 0 := by
        rcases htv with htv | ⟨n, htv⟩
        · rw [htv, pyOrQ_none] at hT
          exact hT
        · rw [htv] at hT
          by_cases hn : ((n : ℤ) : ℚ) = 0
          · rw [hn, pyOrQ_some_zero] at hT
            exact hT
          · rw [pyOrQ_some_ne hn, pyInt_intCast] at hT
            exact absurd (by exact_mod_cast hT) (by exact_mod_cast hn)
      norm_num [pyOrQ_some_zero, pyInt_idem, hpyev, pyInt_zero]
    · have hne : ((pyInt (pyOrQ tv ev) : ℤ) : ℚ) ≠ 0 := by
        exact_mod_cast hT
      rw [pyOrQ_some_ne hne, pyInt_idem]

/-- C7, witness: the amended round trip at the concrete base recipe. -/
theorem c7_witness :
    ∃ g, InputFile.from_json baseFile.to_json = .ok g ∧
      InputFile.eq g baseFile = true :=
  c7_amended [("A", 1)] (some 100) 10000 (some 10000) 2000 540 (some 5) 0 baseFile
    (by decide)
    ⟨10000, by norm_num⟩
    (Or.inr ⟨10000, by norm_num⟩)
    (by
      intro pm hpm
      have hpm' : pm = ("A", 1) := by simpa using hpm
      rw [hpm']
      decide)
    (Or.inr (by decide))
